import Mathlib

/-!
Verification development for the typesafe compilation pipeline and
source-page synchronization engine (src/src/main.rs).

The definitions below are a shallow embedding of the Rust source:

* text utilities mirror the `str`/`Path` operations used by the code
  (`lines`, `splitn`, `split`, `trim_start_matches`, `parse`, substring
  containment, path file-stem/extension extraction);
* `parseErrorLine` embeds the diagnostic extraction performed with the
  regex `error: .+:(\d+): (.*)` of the `regex` crate (leftmost match,
  greedy repetition), `\d` restricted to ASCII digits as accepted by
  `usize::from_str`;
* `compileWorker` embeds the worker thread of `TypesafeApp::compile`,
  with external effects (file write, child processes, the directory
  listing, the SHA-256 hash) supplied as an explicit environment;
* `syncForwardSearch` and `inverseScan` embed
  `TypesafeApp::sync_forward_search` and the inverse-search loop of
  `TypesafeApp::update`; vertical coordinates parsed by the code with
  `str::parse::<f32>` are modelled exactly over `ℚ` restricted to plain
  decimal literals (the SyncTeX fields are decimal integers).
-/

/-- The ASCII open-brace character used by SyncTeX page markers. -/
def openBrace : Char := '\x7b'

/-- Numeric value of a list of ASCII digits, most significant first. -/
def natOfDigits (l : List Char) : Nat :=
  l.foldl (fun n c => 10 * n + (c.toNat - 48)) 0

/-- Largest value of Rust's 64-bit `usize`. -/
def usizeMax : Nat := 2 ^ 64 - 1

/-- Embedding of `str::parse::<usize>`: an optional leading `+`, then one
or more ASCII digits, rejecting overflow past `usize::MAX`. -/
def parseUsize (l : List Char) : Option Nat :=
  let digits := match l with
    | '+' :: t => t
    | t => t
  if digits ≠ [] ∧ digits.all Char.isDigit then
    let v := natOfDigits digits
    if v ≤ usizeMax then some v else none
  else none

/-- `haystack.contains(needle)` on character lists. -/
def containsSub (pat : List Char) : List Char → Bool
  | [] => pat.isPrefixOf ([] : List Char)
  | c :: t => if pat.isPrefixOf (c :: t) then true else containsSub pat t

/-- Rust `str::split(sep)`: always returns at least one (possibly empty)
part. -/
def splitOnChar (sep : Char) : List Char → List (List Char)
  | [] => [[]]
  | c :: t =>
    if c = sep then [] :: splitOnChar sep t
    else
      match splitOnChar sep t with
      | [] => [[c]]
      | p :: ps => (c :: p) :: ps

/-- Embedding of `str::parse::<f32>` restricted to the plain decimal
forms that occur in SyncTeX coordinate fields: an optional sign, digits,
and an optional fractional part.  The value is kept exact in `ℚ`. -/
def parseDecimal (l : List Char) : Option ℚ :=
  let (sign, rest) : ℚ × List Char := match l with
    | '-' :: t => (-1, t)
    | '+' :: t => (1, t)
    | t => (1, t)
  match splitOnChar '.' rest with
  | [ds] =>
    if ds ≠ [] ∧ ds.all Char.isDigit then some (sign * natOfDigits ds) else none
  | [ds, fs] =>
    if (ds ≠ [] ∨ fs ≠ []) ∧ ds.all Char.isDigit ∧ fs.all Char.isDigit then
      some (sign * ((natOfDigits ds : ℚ) + (natOfDigits fs : ℚ) / (10 : ℚ) ^ fs.length))
    else none
  | _ => none

/-- Split at the first occurrence of `sep`; `none` when `sep` is absent
(mirrors `str::find` followed by slicing). -/
def splitAtFirst (sep : Char) : List Char → Option (List Char × List Char)
  | [] => none
  | c :: t =>
    if c = sep then some ([], t)
    else (splitAtFirst sep t).map (fun pr => (c :: pr.1, pr.2))

/-- Split at the last occurrence of `sep`. -/
def splitAtLast (sep : Char) (l : List Char) : Option (List Char × List Char) :=
  (splitAtFirst sep l.reverse).map (fun pr => (pr.2.reverse, pr.1.reverse))

/-- The part of `l` after the last occurrence of `sep` (`l` itself when
`sep` is absent). -/
def afterLast (sep : Char) (l : List Char) : List Char :=
  match splitAtLast sep l with
  | some pr => pr.2
  | none => l

/-- Strip one trailing carriage return, as Rust's `str::lines` does. -/
def stripCR (l : List Char) : List Char :=
  if l.getLast? = some '\r' then l.dropLast else l

/-- Embedding of Rust `str::lines`: split on `\n`, swallow a final line
terminator, strip a trailing `\r` from each line. -/
def rustLines (s : List Char) : List (List Char) :=
  if s.isEmpty then []
  else
    let parts := splitOnChar '\n' s
    let parts := if parts.getLast? = some [] then parts.dropLast else parts
    parts.map stripCR

/-- `Path::file_name` as a character-list operation (everything after the
last `/`). -/
def fileNameChars (p : List Char) : List Char := afterLast '/' p

/-- `Path::parent().unwrap_or(Path::new("."))` on the textual path. -/
def parentDirOf (p : String) : String :=
  match splitAtLast '/' p.data with
  | some pr => String.mk pr.1
  | none => if p.data = [] then "." else ""

/-- `Path::file_stem().unwrap_or_default()`: the file name minus a final
`.extension`, with a name consisting only of a leading dot kept whole. -/
def fileStemOf (p : String) : String :=
  let name := fileNameChars p.data
  match splitAtLast '.' name with
  | some pr => if pr.1 = [] then String.mk name else String.mk pr.1
  | none => String.mk name

/-- `Path::join` restricted to the relative-component case used here. -/
def joinPath (a b : String) : String :=
  if a = "" then b else a ++ "/" ++ b

/-- Whether a path's `Path::extension()` equals `"bib"`. -/
def hasBibExt (p : String) : Bool :=
  match splitAtLast '.' (fileNameChars p.data) with
  | some pr => decide (pr.1 ≠ []) && decide (pr.2 = "bib".data)
  | none => false

/-- The expected PDF artifact path, `parent_dir.join("{stem}.pdf")`. -/
def pdfPathOf (target : String) : String :=
  joinPath (parentDirOf target) (fileStemOf target ++ ".pdf")

/-- `content.trim_start_matches('\u{feff}')`: drop every leading
byte-order-mark before the source is written to disk. -/
def stripBom (content : List Char) : List Char :=
  content.dropWhile (fun c => c = '\uFEFF')

/-- The Rust `Diagnostic` struct. -/
structure Diagnostic where
  message : String
  line : Nat
  file : String
deriving DecidableEq, Repr

/-- The literal `"error: "` recognized by the diagnostic regex. -/
def errMarker : List Char := "error: ".data

/-- Split a maximal ASCII digit run off the front of a list
(`takeWhile is_ascii_digit` together with the rest). -/
def digitRun : List Char → List Char × List Char
  | [] => ([], [])
  | c :: t =>
    if c.isDigit then
      let pr := digitRun t
      (c :: pr.1, pr.2)
    else ([], c :: t)

/-- Try to match `:(\d+): ` at the head of the text, returning the digit
capture and the trailing `(.*)` capture. -/
def validSplitHere : List Char → Option (List Char × List Char)
  | ':' :: r =>
    match digitRun r with
    | ([], _) => none
    | (ds, ':' :: ' ' :: msg) => some (ds, msg)
    | _ => none
  | _ => none

/-- The split chosen by the greedy `.+` of `error: .+:(\d+): (.*)`: the
last position admitting `:(\d+): ` wins. -/
def lastSplitAux : List Char → Option (List Char × List Char)
  | [] => none
  | c :: t =>
    match lastSplitAux t with
    | some r => some r
    | none => validSplitHere (c :: t)

/-- Drop everything up to and including the first `"error: "`. -/
def dropAfterMarker : List Char → Option (List Char)
  | [] => none
  | c :: t =>
    if errMarker.isPrefixOf (c :: t) then some ((c :: t).drop 7)
    else dropAfterMarker t

/-- Apply the diagnostic pattern `error: .+:(\d+): (.*)` to one output
line, mirroring `Regex::captures` (leftmost match, greedy `.+` and
`\d+`) followed by `caps[1].parse::<usize>()`; a failed parse of the
line-number capture yields no diagnostic. -/
def parseErrorLine (target : String) (l : List Char) : Option Diagnostic :=
  match dropAfterMarker l with
  | none => none
  | some t =>
    match t with
    | [] => none
    | _ :: rest =>
      match lastSplitAux rest with
      | none => none
      | some pr =>
        let v := natOfDigits pr.1
        if v ≤ usizeMax then some ⟨String.mk pr.2, v, target⟩ else none

/-- The worker's diagnostic accumulation loop (`for line in ...` with
`diagnostics.push`). -/
def collectDiagnostics (target : String) (ls : List (List Char)) : List Diagnostic :=
  ls.foldl
    (fun acc l =>
      match parseErrorLine target l with
      | some d => acc ++ [d]
      | none => acc)
    []

/-- Diagnostics extracted from a captured engine run:
`stdout.lines().chain(stderr.lines())` fed through the pattern. -/
def diagnosticsOf (target stdout stderr : String) : List Diagnostic :=
  collectDiagnostics target (rustLines stdout.data ++ rustLines stderr.data)

/-- Captured output of a finished child process (`std::process::Output`):
exit code (`none` when killed by a signal) and both streams. -/
structure EngineOutput where
  code : Option Int
  stdout : String
  stderr : String
deriving DecidableEq, Repr

/-- `ExitStatus::success()`. -/
def statusSuccess (o : EngineOutput) : Bool := o.code = some 0

/-- `output.as_ref().map(|o| o.status.success()).unwrap_or(false)`. -/
def runSucceeded : Except String EngineOutput → Bool
  | .ok o => statusSuccess o
  | .error _ => false

/-- The Rust `CompilationMsg` channel message. -/
inductive CMsg where
  | start
  | log (s : String)
  | diagnostics (ds : List Diagnostic)
  | success (pdfPath : String) (bcfHash bibHash : String)
  | error (e : String)
deriving DecidableEq, Repr

/-- Is the message `Start`? -/
def msgIsStart : CMsg → Bool
  | .start => true
  | _ => false

/-- Is the message `Log`? -/
def msgIsLog : CMsg → Bool
  | .log _ => true
  | _ => false

/-- Is the message `Diagnostics`? -/
def msgIsDiagnostics : CMsg → Bool
  | .diagnostics _ => true
  | _ => false

/-- Is the message terminal, i.e. `Success` or `Error`? -/
def msgIsTerminal : CMsg → Bool
  | .success _ _ _ => true
  | .error _ => true
  | _ => false

/-- The environment of one worker-thread invocation: the outcomes of the
external effects the thread performs, in the order it performs them. -/
structure CompileEnv where
  writeError : Option String
  run1 : Except String EngineOutput
  run2 : Except String EngineOutput
  bcfExists : Bool
  bcfHash : String
  dirListing : Option (List String)
  fs : String → Option (List Nat)
  biberResult : Except String EngineOutput
  pdfExists : Bool

/-- The per-request snapshot captured before spawning the worker. -/
structure CompileRequest where
  content : List Char
  filePath : String
  rootFile : Option String
  lastBcfHash : String
  lastBibHash : String

/-- `target_path`: the explicit root file, else the open file, else
`temp.tex`. -/
def targetPathOf (req : CompileRequest) : String :=
  match req.rootFile with
  | some r => r
  | none => if req.filePath ≠ "" then req.filePath else "temp.tex"

/-- The substring whose presence in the source enables the bibliography
phase (`content.contains("biblatex")`). -/
def bibKeyword : List Char := "biblatex".data

/-- `fingerprint_bib_set`: filter the directory listing down to `.bib`
paths, sort the paths, read each file (a failed read contributes
nothing), and hash the concatenated bytes. -/
def fingerprintBibSet (hash : List Nat → String) (fs : String → Option (List Nat))
    (listing : List String) : String :=
  let paths := List.insertionSort (fun a b : String => a ≤ b) (listing.filter hasBibExt)
  hash (paths.map (fun p => (fs p).getD [])).flatten

/-- The `Error` text for a non-zero engine exit, built exactly as the
worker's `format!` does. -/
def engineFailMsg (o : EngineOutput) : String :=
  "Compilation failed with code: " ++ toString (o.code.getD (-1)) ++
    "\n\nSTDOUT:\n" ++ o.stdout ++ "\n\nSTDERR:\n" ++ o.stderr

/-- The terminal message of a compile, from the final engine result. -/
def terminalMsg (pdfPath : String) (pdfExists : Bool) (bcf bib : String) :
    Except String EngineOutput → CMsg
  | .ok o =>
    if statusSuccess o then
      if pdfExists then .success pdfPath bcf bib
      else .error "PDF file not found after compilation"
    else .error (engineFailMsg o)
  | .error e => .error ("Failed to run tectonic: " ++ e)

/-- The log emitted when Biber exits non-zero (recovered locally, not
escalated). -/
def biberWarnLogs (bo : EngineOutput) : List String :=
  if statusSuccess bo then [] else ["Biber warning/error: " ++ bo.stderr]

/-- Result of the conditional bibliography phase.  The phase only ever
sends `Log` messages, so it is recorded as the list of their texts. -/
structure BibPhase where
  logs : List String
  biberAttempted : Bool
  finalOutput : Except String EngineOutput
  engineInvocations : Nat
  bcfHash : String
  bibHash : String

/-- The freshly computed bibliography-set hash: fingerprint the
directory listing when `read_dir` succeeds, else hash the empty byte
sequence (the hasher is finalized unconditionally). -/
def bibHashOf (hash : List Nat → String) (env : CompileEnv) : String :=
  match env.dirListing with
  | some listing => fingerprintBibSet hash env.fs listing
  | none => hash []

/-- The bibliography phase of the worker: reached only when the source
mentions `biblatex`, the first engine run succeeded, and the `.bcf`
control file exists; then either skip Biber on matching fingerprints or
run it (logging a non-zero exit) and re-run the engine once. -/
def bibPhase (hash : List Nat → String) (env : CompileEnv) (req : CompileRequest) : BibPhase :=
  if containsSub bibKeyword req.content ∧ runSucceeded env.run1 ∧ env.bcfExists then
    let bcfH := env.bcfHash
    let bibH := bibHashOf hash env
    if bcfH = req.lastBcfHash ∧ bibH = req.lastBibHash ∧ bcfH ≠ "" then
      ⟨["Citations unchanged."], false, env.run1, 1, bcfH, bibH⟩
    else
      match env.biberResult with
      | .ok bo =>
        ⟨["Citations changed. Processing bibliography with Biber..."] ++
            biberWarnLogs bo ++
            ["Re-compiling document to link citations..."],
          true, env.run2, 2, bcfH, bibH⟩
      | .error _ =>
        ⟨["Citations changed. Processing bibliography with Biber...",
            "Failed to execute Biber."],
          true, env.run1, 1, bcfH, bibH⟩
  else ⟨[], false, env.run1, 1, "", ""⟩

/-- The `Diagnostics` message (if any) for the final engine result. -/
def diagsFor (target : String) : Except String EngineOutput → List CMsg
  | .ok o =>
    let ds := diagnosticsOf target o.stdout o.stderr
    if ds = [] then [] else [.diagnostics ds]
  | .error _ => []

/-- Everything the worker thread leaves behind: the message stream in
emission order plus the externally observable actions. -/
structure WorkerResult where
  msgs : List CMsg
  biberAttempted : Bool
  engineInvocations : Nat
  finalOutput : Option (Except String EngineOutput)
  writtenContent : Option (List Char)
  currentBcfHash : String
  currentBibHash : String

/-- Shallow embedding of the worker thread of `TypesafeApp::compile`
(src/src/main.rs lines 1179-1416). -/
def compileWorker (hash : List Nat → String) (env : CompileEnv) (req : CompileRequest) :
    WorkerResult :=
  match env.writeError with
  | some e =>
    ⟨[.start, .error ("Write error: " ++ e)], false, 0, none, none, "", ""⟩
  | none =>
    let target := targetPathOf req
    let bp := bibPhase hash env req
    ⟨[.start, .log "Compiling document..."] ++ bp.logs.map CMsg.log ++
        diagsFor target bp.finalOutput ++
        [terminalMsg (pdfPathOf target) env.pdfExists bp.bcfHash bp.bibHash bp.finalOutput],
      bp.biberAttempted, bp.engineInvocations, some bp.finalOutput,
      some (stripBom req.content), bp.bcfHash, bp.bibHash⟩

/-- Is this SyncTeX line a page marker (`{<page>`)? -/
def isMarkerLine (l : List Char) : Bool :=
  match l with
  | c :: _ => c = openBrace
  | [] => false

/-- `if let Ok(p) = line[1..].parse::<usize>() { current_page = p }`. -/
def pageUpdate (cur : Nat) (l : List Char) : Nat :=
  match parseUsize (l.drop 1) with
  | some p => p
  | none => cur

/-- The forward-search record key `format!("{},{}:", fid, line_num)`. -/
def recKey (fid lineNum : Nat) : List Char :=
  (toString fid).data ++ ',' :: (toString lineNum).data ++ [':']

/-- The vertical coordinate of a record line: `line.split(':')`, take
part 1, `split(',')`, take coordinate 1, parse as `f32`. -/
def recordV (l : List Char) : Option ℚ :=
  match splitOnChar ':' l with
  | _ :: p1 :: _ =>
    (match splitOnChar ',' p1 with
     | _ :: c1 :: _ => parseDecimal c1
     | _ => none)
  | _ => none

/-- Turn a matched record into the scroll target: 0-based page index via
`saturating_sub(1)` and the page-relative fraction `v/65536/height`
(defaulting to `1/2` when the page geometry is unknown or degenerate).
No clamping is applied. -/
def mkForwardResult (ps : Nat → Option (ℚ × ℚ)) (curPage : Nat) (v : ℚ) : Nat × ℚ :=
  let pageIdx := curPage - 1
  let relY : ℚ :=
    match ps pageIdx with
    | some pr => if 0 < pr.2 then (v / 65536) / pr.2 else 1 / 2
    | none => 1 / 2
  (pageIdx, relY)

/-- The record-matching scan of `sync_forward_search`: walk the SyncTeX
lines tracking the current page, stop at the first line whose tail
starts with the record key and whose coordinate field parses. -/
def forwardScanGo (fid lineNum : Nat) (ps : Nat → Option (ℚ × ℚ)) :
    Nat → List (List Char) → Option (Nat × ℚ)
  | _, [] => none
  | curPage, l :: ls =>
    if isMarkerLine l then forwardScanGo fid lineNum ps (pageUpdate curPage l) ls
    else if 1 < l.length ∧ (recKey fid lineNum).isPrefixOf (l.drop 1) then
      match recordV l with
      | some v => some (mkForwardResult ps curPage v)
      | none => forwardScanGo fid lineNum ps curPage ls
    else forwardScanGo fid lineNum ps curPage ls

/-- File-id resolution: the first `Input:<id>:<path>` line whose path
contains the file name decides the id; the loop breaks there even if the
id fails to parse. -/
def resolveFileId (ls : List (List Char)) (fileName : List Char) : Option Nat :=
  match ls with
  | [] => none
  | l :: rest =>
    if ("Input:".data).isPrefixOf l then
      match splitAtFirst ':' (l.drop 6) with
      | some pr =>
        if containsSub fileName pr.2 then parseUsize pr.1
        else resolveFileId rest fileName
      | none => resolveFileId rest fileName
    else resolveFileId rest fileName

/-- Shallow embedding of `TypesafeApp::sync_forward_search`
(src/src/main.rs lines 1960-2031).  `content` is the decompressed
SyncTeX text split into lines (`none` when the file is missing or
unreadable); the fallback estimator truncates
`page_count * line_num / total_lines` and clamps it to the last page. -/
def syncForwardSearch (content : Option (List (List Char))) (fileName : List Char)
    (lineNum : Nat) (ps : Nat → Option (ℚ × ℚ)) (totalLines pageCount : Nat) : Nat × ℚ :=
  let found : Option (Nat × ℚ) :=
    match content with
    | some ls =>
      match resolveFileId ls fileName with
      | some fid => forwardScanGo fid lineNum ps 1 ls
      | none => none
    | none => none
  match found with
  | some r => r
  | none =>
    let total := max totalLines 1
    let rel : ℚ := (lineNum : ℚ) / (total : ℚ)
    let target := min (Int.toNat ⌊(pageCount : ℚ) * rel⌋) (pageCount - 1)
    (target, 1 / 2)

/-- Specification-side view of the record stream: each non-marker line
paired with the page marker active at its position. -/
def annotateStream : Nat → List (List Char) → List (Nat × List Char)
  | _, [] => []
  | cur, l :: ls =>
    if isMarkerLine l then annotateStream (pageUpdate cur l) ls
    else (cur, l) :: annotateStream cur ls

/-- Does the annotated line match the forward-search key with a
parseable vertical coordinate? -/
def isForwardMatch (fid lineNum : Nat) (pr : Nat × List Char) : Bool :=
  decide (1 < pr.2.length) && (recKey fid lineNum).isPrefixOf (pr.2.drop 1) &&
    (recordV pr.2).isSome

/-- Modelled from the claim: forward search returns the first record in
stream order matching `(file_id, line)` (with a parseable coordinate),
on the page given by the marker active at that point, with fraction
`v/65536/height` (no clamping, `1/2` when the geometry is missing). -/
def forwardScanSpec (fid lineNum : Nat) (ps : Nat → Option (ℚ × ℚ))
    (ls : List (List Char)) : Option (Nat × ℚ) :=
  ((annotateStream 1 ls).find? (isForwardMatch fid lineNum)).map
    (fun pr => mkForwardResult ps pr.1 ((recordV pr.2).getD 0))

/-- The inverse-search distance tolerance, `65536.0 * 50.0` scaled
points. -/
def invTolerance : ℚ := 65536 * 50

/-- Parse one SyncTeX line as an inverse-search record: kind character in
`"xkgvh"`, then `line[1..colon].split(',')[1].parse::<usize>()` for the
source line and `line[colon+1..].split(',')[1].parse::<f32>()` for the
vertical coordinate. -/
def invRecordOf (l : List Char) : Option (Nat × ℚ) :=
  let first := l.headD ' '
  if first = 'x' ∨ first = 'k' ∨ first = 'g' ∨ first = 'v' ∨ first = 'h' then
    match splitAtFirst ':' l with
    | some pr =>
      (match splitOnChar ',' (pr.1.drop 1) with
       | _ :: p1 :: _ =>
         (match parseUsize p1 with
          | some recLine =>
            (match splitOnChar ',' pr.2 with
             | _ :: c1 :: _ => (parseDecimal c1).map (fun v => (recLine, v))
             | _ => none)
          | none => none)
       | _ => none)
    | none => none
  else none

/-- One best-record update of the inverse-search loop:
`if dist < best_dist && dist < 65536.0 * 50.0 { best = (dist, line) }`,
with an empty accumulator standing for the initial `f32::MAX`. -/
def stepBest (y : ℚ) (best : Option (ℚ × Nat)) (r : Nat × ℚ) : Option (ℚ × Nat) :=
  let d := |r.2 - y|
  let beats : Bool :=
    match best with
    | none => true
    | some b => decide (d < b.1)
  if beats ∧ d < invTolerance then some (d, r.1) else best

/-- The page-tracking update of one loop iteration. -/
def invStepPage (cur : Nat) (l : List Char) : Nat :=
  if isMarkerLine l then pageUpdate cur l else cur

/-- The best-record update of one loop iteration: records are only
considered on non-marker lines whose active page equals the target. -/
def invStepBest (tp : Nat) (y : ℚ) (cur : Nat) (best : Option (ℚ × Nat))
    (l : List Char) : Option (ℚ × Nat) :=
  if isMarkerLine l then best
  else if cur = tp then
    match invRecordOf l with
    | some r => stepBest y best r
    | none => best
  else best

/-- The cursor update closing each loop iteration:
`if best_line > 0 { place the cursor at best_line }`. -/
def selStep (sel : Option Nat) : Option (ℚ × Nat) → Option Nat
  | some b => if 0 < b.2 then some b.2 else sel
  | none => sel

/-- The inverse-search loop of `TypesafeApp::update` (src/src/main.rs
lines 3518-3578): walk the lines tracking the page, accumulate the best
record on the target page, and after every line re-point the editor
cursor at the current best line provided it is positive.  The returned
value is the line the cursor was last pointed at (`none` = the naive
fallback runs). -/
def invScanGo (tp : Nat) (y : ℚ) :
    Nat → Option (ℚ × Nat) → Option Nat → List (List Char) → Option Nat
  | _, _, sel, [] => sel
  | cur, best, sel, l :: ls =>
    invScanGo tp y (invStepPage cur l) (invStepBest tp y cur best l)
      (selStep sel (invStepBest tp y cur best l)) ls

/-- Inverse search over a SyncTeX record stream: target page (1-based)
and click coordinate in scaled points. -/
def inverseScan (ls : List (List Char)) (tp : Nat) (y : ℚ) : Option Nat :=
  invScanGo tp y 0 none none ls

/-- The surrounding double-click handler: requires known page geometry,
converts the click fraction back to scaled points
(`rel_y * page_h * 65536.0`), and scans with target page `page_idx + 1`. -/
def inverseSearch (content : Option (List (List Char))) (pageIdx : Nat) (relY : ℚ)
    (ps : Nat → Option (ℚ × ℚ)) : Option Nat :=
  match ps pageIdx with
  | none => none
  | some pr =>
    match content with
    | some ls => inverseScan ls (pageIdx + 1) (relY * pr.2 * 65536)
    | none => none

/-- Specification-side record list: the parseable records whose active
page marker equals the target page, in stream order. -/
def recsOnPage (tp : Nat) : Nat → List (List Char) → List (Nat × ℚ)
  | _, [] => []
  | cur, l :: ls =>
    if isMarkerLine l then recsOnPage tp (pageUpdate cur l) ls
    else if cur = tp then
      match invRecordOf l with
      | some r => r :: recsOnPage tp cur ls
      | none => recsOnPage tp cur ls
    else recsOnPage tp cur ls

/-- Modelled from the claim: the record whose vertical coordinate has
minimum absolute distance to the click coordinate, the earliest in
stream order on a tie. -/
def closestRec (y : ℚ) : List (Nat × ℚ) → Option (Nat × ℚ)
  | [] => none
  | r :: rs =>
    match closestRec y rs with
    | none => some r
    | some b => if |r.2 - y| ≤ |b.2 - y| then some r else some b

/-- Comparison of a candidate minimum against an incumbent best
distance: used to state the inverse-search fold invariant. -/
def bestAgainst (y d0 : ℚ) (l0 : Nat) : Option (Nat × ℚ) → Option (ℚ × Nat)
  | some b => if |b.2 - y| < d0 then some (|b.2 - y|, b.1) else some (d0, l0)
  | none => some (d0, l0)

/-- The minimum-distance record converted to the loop's accumulator
form, filtered by the tolerance. -/
def tolFilter (y : ℚ) : Option (Nat × ℚ) → Option (ℚ × Nat)
  | some b => if |b.2 - y| < invTolerance then some (|b.2 - y|, b.1) else none
  | none => none

/-- Projection of the loop accumulator to the selected source line,
keeping the incoming selection when no record was accumulated. -/
def selOf (sel : Option Nat) : Option (ℚ × Nat) → Option Nat
  | some b => some b.2
  | none => sel

/-- Modelled from the claim: inverse search selects the minimum-distance
record on the target page provided that distance is within the
tolerance; otherwise no record is selected. -/
def inverseSpec (ls : List (List Char)) (tp : Nat) (y : ℚ) : Option Nat :=
  match closestRec y (recsOnPage tp 0 ls) with
  | some b => if |b.2 - y| < invTolerance then some b.1 else none
  | none => none

/-- A concrete SyncTeX stream: one input registration, one page marker,
one record on line 10 with vertical coordinate 13107200sp = 200pt. -/
def sampleSynctex : List (List Char) :=
  ["Input:1:/home/doc.tex".data, "\x7b1".data, "x1,10:0,13107200".data]

/-- A concrete SyncTeX stream with two records on page 1. -/
def sampleSynctexInv : List (List Char) :=
  ["\x7b1".data, "x1,5:0,1000".data, "x1,9:0,2000".data]

/-- A concrete SyncTeX stream whose only record carries source line 0. -/
def sampleSynctexLine0 : List (List Char) :=
  ["\x7b1".data, "x1,0:0,100".data]

/-- A stand-in content hash for concrete evaluations (any function can
be used; the pipeline treats the hash as an opaque collaborator). -/
def constHash : List Nat → String := fun _ => "h"

/-- A concrete empty filesystem for examples. -/
def sampleFs : String → Option (List Nat) := fun _ => none

/-- Concrete page geometry: one page of width 500pt, height 100pt. -/
def samplePS : Nat → Option (ℚ × ℚ) := fun i => if i = 0 then some (500, 100) else none

/-- A request whose source mentions `biblatex`, with stored fingerprints
`("X", "h")`. -/
def sampleReqBib : CompileRequest := ⟨"biblatex".data, "/d/doc.tex", none, "X", "h"⟩

/-- A request without bibliography usage. -/
def sampleReqPlain : CompileRequest := ⟨"hi".data, "/d/doc.tex", none, "", ""⟩

/-- Environment: write succeeds, engine fails with exit code 3. -/
def envEngineFail : CompileEnv :=
  ⟨none, .ok ⟨some 3, "out", "err"⟩, .ok ⟨some 0, "", ""⟩, false, "", none, sampleFs,
    .error "nf", true⟩

/-- Environment: successful engine run, `.bcf` present with hash `"X"`,
no directory listing, Biber unavailable, PDF produced. -/
def envSkip : CompileEnv :=
  ⟨none, .ok ⟨some 0, "", ""⟩, .ok ⟨some 0, "", ""⟩, true, "X", none, sampleFs,
    .error "spawn failed", true⟩

/-- Environment: successful engine run, `.bcf` hash `"Y"` (differs from
the stored fingerprint), Biber spawn fails, PDF produced. -/
def envBiberSpawnFail : CompileEnv :=
  ⟨none, .ok ⟨some 0, "so", "se"⟩, .ok ⟨some 7, "", ""⟩, true, "Y", none, sampleFs,
    .error "spawn failed", true⟩

/-- C9: the compile write path strips every leading byte-order-mark, and
the stripping is idempotent: a second pass over already-written bytes
changes nothing. -/
theorem compile_write_strips_bom :
    ∀ (hash : List Nat → String) (env : CompileEnv) (req : CompileRequest) (s : List Char),
      (env.writeError = none →
        (compileWorker hash env req).writtenContent = some (stripBom req.content)) ∧
      stripBom (stripBom s) = stripBom s ∧
      stripBom ('﻿' :: s) = stripBom s := by
  intro hash env req s
  refine ⟨fun h => ?_, ?_, ?_⟩
  · simp [compileWorker, h]
  · exact List.dropWhile_idempotent _ _
  · simp [stripBom, List.dropWhile_cons]

/-- Witness for C9 at a concrete environment and content. -/
theorem compile_write_strips_bom_witness :
    (compileWorker constHash envEngineFail sampleReqPlain).writtenContent =
      some (stripBom sampleReqPlain.content) ∧
    stripBom (stripBom ('﻿' :: 'a' :: [])) = stripBom ('﻿' :: 'a' :: []) :=
  ⟨(compile_write_strips_bom constHash envEngineFail sampleReqPlain []).1 rfl,
    (compile_write_strips_bom constHash envEngineFail sampleReqPlain ('﻿' :: 'a' :: [])).2.1⟩

/-- C4: the bibliography-set fingerprint does not depend on the order in
which the directory enumeration yields the paths, because the paths are
sorted before their bytes are hashed. -/
theorem fingerprint_bib_set_order_independent :
    ∀ (hash : List Nat → String) (fs : String → Option (List Nat)) (l1 l2 : List String),
      List.Perm l1 l2 → fingerprintBibSet hash fs l1 = fingerprintBibSet hash fs l2 := by
  intro hash fs l1 l2 hp
  have hperm :
      List.Perm (List.insertionSort (fun a b : String => a ≤ b) (l1.filter hasBibExt))
        (List.insertionSort (fun a b : String => a ≤ b) (l2.filter hasBibExt)) :=
    (List.perm_insertionSort _ _).trans
      ((hp.filter _).trans (List.perm_insertionSort _ _).symm)
  have h1 : List.Sorted (fun a b : String => a ≤ b)
      (List.insertionSort (fun a b : String => a ≤ b) (l1.filter hasBibExt)) :=
    List.sorted_insertionSort _ _
  have h2 : List.Sorted (fun a b : String => a ≤ b)
      (List.insertionSort (fun a b : String => a ≤ b) (l2.filter hasBibExt)) :=
    List.sorted_insertionSort _ _
  have hsorted := List.eq_of_perm_of_sorted hperm h1 h2
  rw [fingerprintBibSet, fingerprintBibSet, hsorted]

/-- Witness for C4: two orderings of the same `.bib` file set fingerprint
identically. -/
theorem fingerprint_bib_set_order_independent_witness :
    List.Perm ["b.bib", "a.bib"] ["a.bib", "b.bib"] ∧
    fingerprintBibSet (fun bs => toString bs.length) (fun p => some (p.data.map Char.toNat))
        ["b.bib", "a.bib"] =
      fingerprintBibSet (fun bs => toString bs.length) (fun p => some (p.data.map Char.toNat))
        ["a.bib", "b.bib"] :=
  ⟨by decide,
    fingerprint_bib_set_order_independent _ _ _ _ (by decide)⟩


/-- Mapping `CMsg.log` over log texts yields no message satisfying a
predicate that rejects `Log`. -/
theorem countP_map_log (p : CMsg → Bool) (L : List String)
    (h : ∀ s, p (CMsg.log s) = false) : (L.map CMsg.log).countP p = 0 :=
  List.countP_eq_zero.mpr fun m hm => by
    rcases List.mem_map.mp hm with ⟨s, _, rfl⟩
    simp [h s]

/-- The diagnostics block is empty or one `Diagnostics` message. -/
theorem diagsFor_cases (target : String) (res : Except String EngineOutput) :
    diagsFor target res = [] ∨ ∃ ds, diagsFor target res = [CMsg.diagnostics ds] := by
  cases res with
  | ok o =>
    dsimp [diagsFor]
    split
    · exact .inl rfl
    · exact .inr ⟨_, rfl⟩
  | error e => exact .inl rfl

/-- The terminal message is always `Success` or `Error`. -/
theorem terminalMsg_terminal (p : String) (pe : Bool) (b1 b2 : String)
    (res : Except String EngineOutput) :
    msgIsTerminal (terminalMsg p pe b1 b2 res) = true := by
  cases res with
  | ok o =>
    dsimp [terminalMsg]
    split
    · split <;> rfl
    · rfl
  | error e => rfl

/-- The terminal message is never `Start` or `Diagnostics`. -/
theorem terminalMsg_not_other (p : String) (pe : Bool) (b1 b2 : String)
    (res : Except String EngineOutput) :
    msgIsStart (terminalMsg p pe b1 b2 res) = false ∧
      msgIsDiagnostics (terminalMsg p pe b1 b2 res) = false := by
  cases res with
  | ok o =>
    dsimp [terminalMsg]
    split
    · split <;> exact ⟨rfl, rfl⟩
    · exact ⟨rfl, rfl⟩
  | error e => exact ⟨rfl, rfl⟩

/-- C1: every worker message stream has exactly one `Start`, as its
first message, at most one `Diagnostics`, zero or more `Log`s, and
exactly one terminal `Success`/`Error`, as its final message; nothing
follows the terminal message. -/
theorem compile_message_stream_shape :
    ∀ (hash : List Nat → String) (env : CompileEnv) (req : CompileRequest),
      (compileWorker hash env req).msgs.head? = some CMsg.start ∧
      (compileWorker hash env req).msgs.countP msgIsStart = 1 ∧
      (compileWorker hash env req).msgs.countP msgIsDiagnostics ≤ 1 ∧
      (compileWorker hash env req).msgs.countP msgIsTerminal = 1 ∧
      ∃ m, (compileWorker hash env req).msgs.getLast? = some m ∧ msgIsTerminal m = true := by
  intro hash env req
  rcases henv : env.writeError with _ | e
  · have hLs : ((bibPhase hash env req).logs.map CMsg.log).countP msgIsStart = 0 :=
      countP_map_log _ _ (fun s => rfl)
    have hLd : ((bibPhase hash env req).logs.map CMsg.log).countP msgIsDiagnostics = 0 :=
      countP_map_log _ _ (fun s => rfl)
    have hLt : ((bibPhase hash env req).logs.map CMsg.log).countP msgIsTerminal = 0 :=
      countP_map_log _ _ (fun s => rfl)
    have hDs : (diagsFor (targetPathOf req) (bibPhase hash env req).finalOutput).countP msgIsStart = 0 := by
      rcases diagsFor_cases (targetPathOf req) (bibPhase hash env req).finalOutput with h | ⟨ds, h⟩ <;>
        simp [h, List.countP_cons, msgIsStart]
    have hDd : (diagsFor (targetPathOf req) (bibPhase hash env req).finalOutput).countP msgIsDiagnostics ≤ 1 := by
      rcases diagsFor_cases (targetPathOf req) (bibPhase hash env req).finalOutput with h | ⟨ds, h⟩ <;>
        simp [h, List.countP_cons, msgIsDiagnostics]
    have hDt : (diagsFor (targetPathOf req) (bibPhase hash env req).finalOutput).countP msgIsTerminal = 0 := by
      rcases diagsFor_cases (targetPathOf req) (bibPhase hash env req).finalOutput with h | ⟨ds, h⟩ <;>
        simp [h, List.countP_cons, msgIsTerminal]
    have hTt := terminalMsg_terminal (pdfPathOf (targetPathOf req)) env.pdfExists
      (bibPhase hash env req).bcfHash (bibPhase hash env req).bibHash
      (bibPhase hash env req).finalOutput
    have hTo := terminalMsg_not_other (pdfPathOf (targetPathOf req)) env.pdfExists
      (bibPhase hash env req).bcfHash (bibPhase hash env req).bibHash
      (bibPhase hash env req).finalOutput
    refine ⟨?_, ?_, ?_, ?_, ?_⟩
    · simp [compileWorker, henv]
    · simp only [compileWorker, henv, List.cons_append, List.countP_cons, List.countP_append,
        List.countP_nil, List.nil_append, hLs, hDs, hTo.1, hTt]
      simp [msgIsStart]
    · simp only [compileWorker, henv, List.cons_append, List.countP_cons, List.countP_append,
        List.countP_nil, List.nil_append, hLd, hTo.2]
      simp [msgIsDiagnostics]
      exact hDd
    · simp only [compileWorker, henv, List.cons_append, List.countP_cons, List.countP_append,
        List.countP_nil, List.nil_append, hLt, hDt, hTt]
      simp [msgIsTerminal]
    · refine ⟨_, ?_, hTt⟩
      simp only [compileWorker, henv]
      exact List.getLast?_concat _
  · simp [compileWorker, henv, msgIsStart, msgIsDiagnostics, msgIsTerminal, List.countP_cons]

/-- A list is a prefix of itself followed by anything. -/
theorem isPrefixOf_self_append (p x : List Char) : p.isPrefixOf (p ++ x) = true := by
  induction p with
  | nil => simp [List.isPrefixOf]
  | cons c t ih => simp [List.isPrefixOf, ih]

/-- Substring search succeeds when the pattern is a prefix. -/
theorem containsSub_of_isPrefixOf (p h : List Char) (hp : p.isPrefixOf h = true) :
    containsSub p h = true := by
  cases h with
  | nil => simpa [containsSub] using hp
  | cons c t => rw [containsSub, if_pos hp]

/-- Substring search finds a pattern embedded anywhere. -/
theorem containsSub_of_parts (p pre suf : List Char) :
    containsSub p (pre ++ (p ++ suf)) = true := by
  induction pre with
  | nil =>
    rw [List.nil_append]
    exact containsSub_of_isPrefixOf _ _ (isPrefixOf_self_append p suf)
  | cons c t ih =>
    rw [List.cons_append, containsSub]
    split
    · rfl
    · exact ih

/-- Behaviour of the bibliography phase once its guard holds: the fresh
fingerprints are recorded, Biber is skipped exactly on the fingerprint
match, the skip is logged, and a spawn failure leaves the first engine
run as the final output. -/
theorem bibPhase_branch (hash : List Nat → String) (env : CompileEnv) (req : CompileRequest)
    (hbr : containsSub bibKeyword req.content = true ∧ runSucceeded env.run1 = true ∧
      env.bcfExists = true) :
    (bibPhase hash env req).bcfHash = env.bcfHash ∧
    (bibPhase hash env req).bibHash = bibHashOf hash env ∧
    ((bibPhase hash env req).biberAttempted = false ↔
      (env.bcfHash = req.lastBcfHash ∧ bibHashOf hash env = req.lastBibHash ∧
        env.bcfHash ≠ "")) ∧
    ((env.bcfHash = req.lastBcfHash ∧ bibHashOf hash env = req.lastBibHash ∧
        env.bcfHash ≠ "") →
      (bibPhase hash env req).logs = ["Citations unchanged."]) ∧
    (¬(env.bcfHash = req.lastBcfHash ∧ bibHashOf hash env = req.lastBibHash ∧
        env.bcfHash ≠ "") →
      ∀ e, env.biberResult = .error e →
        (bibPhase hash env req).logs =
            ["Citations changed. Processing bibliography with Biber...",
              "Failed to execute Biber."] ∧
          (bibPhase hash env req).biberAttempted = true ∧
          (bibPhase hash env req).finalOutput = env.run1 ∧
          (bibPhase hash env req).engineInvocations = 1) := by
  by_cases hskip : env.bcfHash = req.lastBcfHash ∧ bibHashOf hash env = req.lastBibHash ∧
      env.bcfHash ≠ ""
  · have hb : bibPhase hash env req =
        ⟨["Citations unchanged."], false, env.run1, 1, env.bcfHash, bibHashOf hash env⟩ := by
      simp only [bibPhase]
      rw [if_pos hbr, if_pos hskip]
    exact ⟨by simp [hb], by simp [hb],
      ⟨fun _ => hskip, fun _ => by simp [hb]⟩,
      fun _ => by simp [hb], fun hns => absurd hskip hns⟩
  · rcases hbib : env.biberResult with e | bo
    · have hb : bibPhase hash env req =
          ⟨["Citations changed. Processing bibliography with Biber...",
              "Failed to execute Biber."],
            true, env.run1, 1, env.bcfHash, bibHashOf hash env⟩ := by
        simp only [bibPhase]
        rw [if_pos hbr, if_neg hskip, hbib]
      refine ⟨by simp [hb], by simp [hb], by simp [hb, hskip],
        fun h => absurd h hskip, fun _ e2 _ => ?_⟩
      simp [hb]
    · have hb : bibPhase hash env req =
          ⟨["Citations changed. Processing bibliography with Biber..."] ++
              biberWarnLogs bo ++ ["Re-compiling document to link citations..."],
            true, env.run2, 2, env.bcfHash, bibHashOf hash env⟩ := by
        simp only [bibPhase]
        rw [if_pos hbr, if_neg hskip, hbib]
      refine ⟨by simp [hb], by simp [hb], by simp [hb, hskip],
        fun h => absurd h hskip, fun _ e2 he2 => ?_⟩
      simp [hbib] at he2

/-- On a successful write, the worker ends with the terminal message of
the bibliography phase result, and its observable fields are those of
the phase. -/
theorem compileWorker_getLast (hash : List Nat → String) (env : CompileEnv)
    (req : CompileRequest) (h : env.writeError = none) :
    (compileWorker hash env req).msgs.getLast? =
      some (terminalMsg (pdfPathOf (targetPathOf req)) env.pdfExists
        (bibPhase hash env req).bcfHash (bibPhase hash env req).bibHash
        (bibPhase hash env req).finalOutput) ∧
    (compileWorker hash env req).finalOutput = some (bibPhase hash env req).finalOutput ∧
    (compileWorker hash env req).biberAttempted = (bibPhase hash env req).biberAttempted ∧
    (compileWorker hash env req).engineInvocations = (bibPhase hash env req).engineInvocations ∧
    (compileWorker hash env req).currentBcfHash = (bibPhase hash env req).bcfHash ∧
    (compileWorker hash env req).currentBibHash = (bibPhase hash env req).bibHash := by
  refine ⟨?_, ?_, ?_, ?_, ?_, ?_⟩ <;> simp only [compileWorker, h]
  exact List.getLast?_concat _

/-- Log texts of the bibliography phase appear in the message stream. -/
theorem compileWorker_log_mem (hash : List Nat → String) (env : CompileEnv)
    (req : CompileRequest) (s : String) (h : env.writeError = none)
    (hs : s ∈ (bibPhase hash env req).logs) :
    CMsg.log s ∈ (compileWorker hash env req).msgs := by
  simp only [compileWorker, h]
  exact List.mem_append.mpr (Or.inl (List.mem_append.mpr (Or.inl
    (List.mem_append.mpr (Or.inr (List.mem_map_of_mem _ hs))))))

/-- The freshly computed bibliography hash is never empty when the hash
function never returns the empty string (SHA-256 hex is 64 chars). -/
theorem bibHashOf_ne_empty (hash : List Nat → String) (env : CompileEnv)
    (hh : ∀ bs, hash bs ≠ "") : bibHashOf hash env ≠ "" := by
  unfold bibHashOf
  cases env.dirListing with
  | none => exact hh []
  | some l => exact hh _

/-- C3: within the bibliography branch, the worker skips Biber exactly
when the freshly computed `(bcf, bib)` fingerprint pair equals the
stored pair and is non-empty, logging "Citations unchanged."; hence a
second compile after a `Success` that stored the same fingerprints does
not invoke Biber. -/
theorem citation_skip_iff :
    ∀ (hash : List Nat → String) (env : CompileEnv) (req : CompileRequest),
      (∀ bs, hash bs ≠ "") →
      env.writeError = none →
      (containsSub bibKeyword req.content = true ∧ runSucceeded env.run1 = true ∧
        env.bcfExists = true) →
      (((compileWorker hash env req).biberAttempted = false) ↔
        ((compileWorker hash env req).currentBcfHash = req.lastBcfHash ∧
          (compileWorker hash env req).currentBibHash = req.lastBibHash ∧
          (compileWorker hash env req).currentBcfHash ≠ "" ∧
          (compileWorker hash env req).currentBibHash ≠ "")) ∧
      ((compileWorker hash env req).biberAttempted = false →
        CMsg.log "Citations unchanged." ∈ (compileWorker hash env req).msgs) ∧
      (∀ (p b1 b2 : String) (env1 : CompileEnv) (req1 : CompileRequest),
        (compileWorker hash env1 req1).msgs.getLast? = some (CMsg.success p b1 b2) →
        req.lastBcfHash = b1 → req.lastBibHash = b2 →
        env.bcfHash = b1 → bibHashOf hash env = b2 → b1 ≠ "" →
        (compileWorker hash env req).biberAttempted = false) := by
  intro hash env req hh hw hbr
  obtain ⟨hbcf, hbib, hiff, hlog, _⟩ := bibPhase_branch hash env req hbr
  obtain ⟨hlast, hfin, hatt, hinv, hcb, hcb2⟩ := compileWorker_getLast hash env req hw
  have hbibne : bibHashOf hash env ≠ "" := bibHashOf_ne_empty hash env hh
  refine ⟨?_, ?_, ?_⟩
  · rw [hatt, hcb, hcb2, hbcf, hbib]
    constructor
    · intro hfalse
      obtain ⟨h1, h2, h3⟩ := hiff.mp hfalse
      exact ⟨h1, h2, h3, hbibne⟩
    · rintro ⟨h1, h2, h3, -⟩
      exact hiff.mpr ⟨h1, h2, h3⟩
  · intro hfalse
    refine compileWorker_log_mem hash env req _ hw ?_
    rw [hlog (hiff.mp (by rw [← hatt]; exact hfalse))]
    exact List.mem_singleton.mpr rfl
  · intro p b1 b2 env1 req1 _ hr1 hr2 he1 he2 hne
    rw [hatt]
    exact hiff.mpr ⟨by rw [he1, hr1], by rw [he2, hr2], by rw [he1]; exact hne⟩

/-- Witness for C3: a concrete second compile with unchanged
fingerprints skips Biber. -/
theorem citation_skip_iff_witness :
    (compileWorker constHash envSkip sampleReqBib).biberAttempted = false :=
  ((citation_skip_iff constHash envSkip sampleReqBib (fun _ => by simp [constHash]) rfl
    (by decide)).1).mpr (by decide)

/-- C10: if spawning Biber fails, the worker only logs "Failed to
execute Biber.", does not re-run the engine, derives the terminal
message from the first engine invocation, and in particular still emits
`Success` when that run succeeded and the PDF exists. -/
theorem biber_spawn_failure_nonfatal :
    ∀ (hash : List Nat → String) (env : CompileEnv) (req : CompileRequest) (e : String),
      env.writeError = none →
      (containsSub bibKeyword req.content = true ∧ runSucceeded env.run1 = true ∧
        env.bcfExists = true) →
      ¬(env.bcfHash = req.lastBcfHash ∧ bibHashOf hash env = req.lastBibHash ∧
        env.bcfHash ≠ "") →
      env.biberResult = .error e →
      CMsg.log "Failed to execute Biber." ∈ (compileWorker hash env req).msgs ∧
      (compileWorker hash env req).engineInvocations = 1 ∧
      (compileWorker hash env req).finalOutput = some env.run1 ∧
      (compileWorker hash env req).msgs.getLast? =
        some (terminalMsg (pdfPathOf (targetPathOf req)) env.pdfExists env.bcfHash
          (bibHashOf hash env) env.run1) ∧
      (env.pdfExists = true →
        (compileWorker hash env req).msgs.getLast? =
          some (CMsg.success (pdfPathOf (targetPathOf req)) env.bcfHash
            (bibHashOf hash env))) := by
  intro hash env req e hw hbr hskip hbib
  obtain ⟨hbcf, hbibh, _, _, hno⟩ := bibPhase_branch hash env req hbr
  obtain ⟨hlogs, hatt2, hfin2, hinv2⟩ := hno hskip e hbib
  obtain ⟨hlast, hfin, hatt, hinv, hcb, hcb2⟩ := compileWorker_getLast hash env req hw
  have hlast2 : (compileWorker hash env req).msgs.getLast? =
      some (terminalMsg (pdfPathOf (targetPathOf req)) env.pdfExists env.bcfHash
        (bibHashOf hash env) env.run1) := by
    rw [hlast, hbcf, hbibh, hfin2]
  refine ⟨?_, ?_, ?_, hlast2, ?_⟩
  · refine compileWorker_log_mem hash env req _ hw ?_
    rw [hlogs]
    simp
  · rw [hinv, hinv2]
  · rw [hfin, hfin2]
  · intro hp
    rcases hrun : env.run1 with e1 | o
    · rw [hrun] at hbr
      simp [runSucceeded] at hbr
    · have hsucc : statusSuccess o = true := by
        have := hbr.2.1
        rw [hrun] at this
        exact this
      rw [hlast2, hrun]
      simp [terminalMsg, hsucc, hp]

/-- Witness for C10 at a concrete environment with a Biber spawn
failure. -/
theorem biber_spawn_failure_nonfatal_witness :
    CMsg.log "Failed to execute Biber." ∈
        (compileWorker constHash envBiberSpawnFail sampleReqBib).msgs ∧
      (compileWorker constHash envBiberSpawnFail sampleReqBib).engineInvocations = 1 :=
  ⟨(biber_spawn_failure_nonfatal constHash envBiberSpawnFail sampleReqBib "spawn failed"
      rfl (by decide) (by decide) rfl).1,
    (biber_spawn_failure_nonfatal constHash envBiberSpawnFail sampleReqBib "spawn failed"
      rfl (by decide) (by decide) rfl).2.1⟩

/-- C2: when the source write succeeds, the terminal message is
`Success` iff the final engine invocation exited with code zero and the
PDF artifact exists; a zero exit without the artifact yields the
artifact-missing `Error`, and a non-zero exit yields an `Error` that
contains the exit code and both captured streams verbatim. -/
theorem compile_terminal_characterization :
    ∀ (hash : List Nat → String) (env : CompileEnv) (req : CompileRequest),
      env.writeError = none →
      ((∃ p b1 b2, (compileWorker hash env req).msgs.getLast? =
          some (CMsg.success p b1 b2)) ↔
        (∃ o, (compileWorker hash env req).finalOutput = some (.ok o) ∧
          statusSuccess o = true ∧ env.pdfExists = true)) ∧
      (∀ o, (compileWorker hash env req).finalOutput = some (.ok o) →
        statusSuccess o = true → env.pdfExists = false →
        (compileWorker hash env req).msgs.getLast? =
          some (CMsg.error "PDF file not found after compilation")) ∧
      (∀ o, (compileWorker hash env req).finalOutput = some (.ok o) →
        statusSuccess o = false →
        ∃ e, (compileWorker hash env req).msgs.getLast? = some (CMsg.error e) ∧
          containsSub (toString (o.code.getD (-1))).data e.data = true ∧
          containsSub o.stdout.data e.data = true ∧
          containsSub o.stderr.data e.data = true) := by
  intro hash env req hw
  obtain ⟨hlast, hfin, -, -, -, -⟩ := compileWorker_getLast hash env req hw
  refine ⟨⟨?_, ?_⟩, ?_, ?_⟩
  · rintro ⟨p, b1, b2, hps⟩
    rw [hlast] at hps
    rcases hres : (bibPhase hash env req).finalOutput with e1 | o
    · rw [hres] at hps
      simp [terminalMsg] at hps
    · rw [hres] at hps
      refine ⟨o, by rw [hfin, hres], ?_, ?_⟩ <;>
      · by_cases hs : statusSuccess o = true <;> by_cases hp : env.pdfExists = true <;>
          simp_all [terminalMsg]
  · rintro ⟨o, ho, hs, hp⟩
    rw [hfin] at ho
    have hres : (bibPhase hash env req).finalOutput = .ok o := Option.some.inj ho
    refine ⟨pdfPathOf (targetPathOf req), (bibPhase hash env req).bcfHash,
      (bibPhase hash env req).bibHash, ?_⟩
    rw [hlast, hres]
    simp [terminalMsg, hs, hp]
  · intro o ho hs hp
    rw [hfin] at ho
    have hres : (bibPhase hash env req).finalOutput = .ok o := Option.some.inj ho
    rw [hlast, hres]
    simp [terminalMsg, hs, hp]
  · intro o ho hs
    rw [hfin] at ho
    have hres : (bibPhase hash env req).finalOutput = .ok o := Option.some.inj ho
    refine ⟨engineFailMsg o, ?_, ?_, ?_, ?_⟩
    · rw [hlast, hres]
      simp [terminalMsg, hs]
    · have h2 := containsSub_of_parts (toString (o.code.getD (-1))).data
        ("Compilation failed with code: ").data
        (("\n\nSTDOUT:\n" ++ o.stdout ++ "\n\nSTDERR:\n" ++ o.stderr)).data
      simpa [engineFailMsg, String.data_append, List.append_assoc] using h2
    · have h2 := containsSub_of_parts o.stdout.data
        ("Compilation failed with code: " ++ toString (o.code.getD (-1)) ++
          "\n\nSTDOUT:\n").data
        ("\n\nSTDERR:\n" ++ o.stderr).data
      simpa [engineFailMsg, String.data_append, List.append_assoc] using h2
    · have h2 := containsSub_of_parts o.stderr.data
        ("Compilation failed with code: " ++ toString (o.code.getD (-1)) ++
          "\n\nSTDOUT:\n" ++ o.stdout ++ "\n\nSTDERR:\n").data
        ("").data
      simpa [engineFailMsg, String.data_append, List.append_assoc] using h2

/-- Witness for C2: a concrete failing engine run produces the error
message with code and streams embedded. -/
theorem compile_terminal_characterization_witness :
    ∃ e, (compileWorker constHash envEngineFail sampleReqPlain).msgs.getLast? =
        some (CMsg.error e) ∧
      containsSub (toString ((3 : Int))).data e.data = true ∧
      containsSub "out".data e.data = true ∧
      containsSub "err".data e.data = true :=
  (compile_terminal_characterization constHash envEngineFail sampleReqPlain rfl).2.2
    ⟨some 3, "out", "err"⟩ rfl (by decide)

/-- The forward scan equals the specification scan: the first annotated
record matching the key with a parseable coordinate, for any starting
page. -/
theorem forwardScanGo_eq_spec (fid n : Nat) (ps : Nat → Option (ℚ × ℚ)) :
    ∀ (ls : List (List Char)) (cur : Nat),
      forwardScanGo fid n ps cur ls =
        ((annotateStream cur ls).find? (isForwardMatch fid n)).map
          (fun pr => mkForwardResult ps pr.1 ((recordV pr.2).getD 0)) := by
  intro ls
  induction ls with
  | nil => intro cur; rfl
  | cons l ls ih =>
    intro cur
    by_cases hm : isMarkerLine l = true
    · rw [forwardScanGo, if_pos hm, annotateStream, if_pos hm]
      exact ih _
    · rw [forwardScanGo, if_neg hm, annotateStream, if_neg hm]
      by_cases hc : 1 < l.length ∧ (recKey fid n).isPrefixOf (l.drop 1) = true
      · have hpre : (recKey fid n).isPrefixOf (l.tail) = true := by
          have h2 := hc.2
          rwa [List.drop_one] at h2
        rcases hv : recordV l with _ | v
        · have hmt : ¬isForwardMatch fid n (cur, l) = true := by
            simp [isForwardMatch, hv]
          rw [if_pos hc]
          rw [List.find?_cons_of_neg _ hmt]
          exact ih _
        · have hmt : isForwardMatch fid n (cur, l) = true := by
            simp [isForwardMatch, hv, hc.1, hpre]
          rw [if_pos hc]
          rw [List.find?_cons_of_pos _ hmt]
          simp [hv]
      · have hmt : ¬isForwardMatch fid n (cur, l) = true := by
          rcases Decidable.not_and_iff_or_not.mp hc with h | h
          · simp [isForwardMatch, h]
          · have h3 : ¬recKey fid n <+: l.tail := by
              rw [← List.drop_one]
              simpa using h
            simp [isForwardMatch, h3]
        rw [if_neg hc, List.find?_cons_of_neg _ hmt]
        exact ih _

/-- C6 (amended): when a file id resolves, forward search returns the
result of the first record in stream order matching the `(file_id,
line)` key with a parseable vertical coordinate, on the page of the
active marker, with fraction `v/65536/height` — unclamped, defaulting
to `1/2` without (positive) page geometry. -/
theorem forward_search_first_match :
    ∀ (ls : List (List Char)) (fileName : List Char) (n : Nat) (ps : Nat → Option (ℚ × ℚ))
      (tl pc fid : Nat),
      resolveFileId ls fileName = some fid →
      forwardScanGo fid n ps 1 ls = forwardScanSpec fid n ps ls ∧
      (∀ pr, forwardScanGo fid n ps 1 ls = some pr →
        syncForwardSearch (some ls) fileName n ps tl pc = pr) := by
  intro ls fileName n ps tl pc fid hres
  refine ⟨forwardScanGo_eq_spec fid n ps ls 1, fun pr hpr => ?_⟩
  simp [syncForwardSearch, hres, hpr]

/-- Witness for C6 at a concrete SyncTeX stream. -/
theorem forward_search_first_match_witness :
    resolveFileId sampleSynctex "doc.tex".data = some 1 ∧
    forwardScanGo 1 10 samplePS 1 sampleSynctex = forwardScanSpec 1 10 samplePS sampleSynctex :=
  ⟨by decide,
    (forward_search_first_match sampleSynctex "doc.tex".data 10 samplePS 50 3 1 (by decide)).1⟩

/-- Counterexample to C6 as stated: the returned fraction is 2, outside
`[0,1]`, so no clamping takes place. -/
theorem forward_search_no_clamp_counterexample :
    syncForwardSearch (some sampleSynctex) "doc.tex".data 10 samplePS 50 3 =
      (0, (1 : ℚ) * ((13107200 : ℕ) : ℚ) / 65536 / 100) ∧
    (1 : ℚ) * ((13107200 : ℕ) : ℚ) / 65536 / 100 = 2 ∧ ¬((2 : ℚ) ≤ 1) := by
  refine ⟨rfl, by norm_num, by norm_num⟩

/-- C8 (amended): the fallback estimator truncates
`page_count * line / max(total_lines, 1)` (it does not round) and
clamps the result to the last page index, with fraction `1/2`; it is
used when there is no synchronization content, no resolvable file id,
or no matching record. -/
theorem forward_fallback_truncates :
    ∀ (fileName : List Char) (n : Nat) (ps : Nat → Option (ℚ × ℚ)) (tl pc : Nat),
      (syncForwardSearch none fileName n ps tl pc =
        (min (Int.toNat ⌊(pc : ℚ) * ((n : ℚ) / ((max tl 1 : ℕ) : ℚ))⌋) (pc - 1), 1 / 2)) ∧
      (∀ ls, resolveFileId ls fileName = none →
        syncForwardSearch (some ls) fileName n ps tl pc =
          syncForwardSearch none fileName n ps tl pc) ∧
      (∀ ls fid, resolveFileId ls fileName = some fid →
        forwardScanGo fid n ps 1 ls = none →
        syncForwardSearch (some ls) fileName n ps tl pc =
          syncForwardSearch none fileName n ps tl pc) := by
  intro fileName n ps tl pc
  refine ⟨rfl, fun ls h => ?_, fun ls fid h1 h2 => ?_⟩
  · simp [syncForwardSearch, h]
  · simp [syncForwardSearch, h1, h2]

/-- Witness for C8: an empty stream resolves no file id and falls back. -/
theorem forward_fallback_truncates_witness :
    syncForwardSearch (some []) [] 7 samplePS 8 10 =
      syncForwardSearch none [] 7 samplePS 8 10 :=
  (forward_fallback_truncates [] 7 samplePS 8 10).2.1 [] rfl

/-- Counterexample to C8 as stated: at 10 pages, line 7 of 8, the code
yields page index 8 (truncation) where rounding would give 9. -/
theorem forward_fallback_round_counterexample :
    syncForwardSearch none [] 7 samplePS 8 10 =
      (min (Int.toNat ⌊((10 : ℕ) : ℚ) * (((7 : ℕ) : ℚ) / ((8 : ℕ) : ℚ))⌋) 9, 1 / 2) ∧
    min (Int.toNat ⌊((10 : ℕ) : ℚ) * (((7 : ℕ) : ℚ) / ((8 : ℕ) : ℚ))⌋) 9 = 8 ∧
    round ((10 : ℚ) * ((7 : ℚ) / (8 : ℚ))) = 9 ∧ (8 : ℕ) ≠ 9 := by
  refine ⟨rfl, ?_, ?_, by decide⟩
  · norm_num
    rfl
  · norm_num [round_eq]

/-- `digitRun` splits its input, the run is all digits, and the rest
starts with a non-digit. -/
theorem digitRun_sound : ∀ (l a b : List Char), digitRun l = (a, b) →
    l = a ++ b ∧ a.all Char.isDigit = true ∧
      (b = [] ∨ ∃ c t, b = c :: t ∧ c.isDigit = false) := by
  intro l
  induction l with
  | nil =>
    intro a b h
    rw [digitRun] at h
    injection h with h1 h2
    subst h1
    subst h2
    simp
  | cons c t ih =>
    intro a b h
    rw [digitRun] at h
    by_cases hc : c.isDigit
    · rw [if_pos hc] at h
      rcases hd : digitRun t with ⟨a1, b1⟩
      rw [hd] at h
      cases h
      obtain ⟨h1, h2, h3⟩ := ih a1 b1 hd
      exact ⟨by simp [h1], by simp [hc, h2], h3⟩
    · rw [if_neg hc] at h
      cases h
      refine ⟨rfl, rfl, Or.inr ⟨c, t, rfl, by simpa using hc⟩⟩

/-- `digitRun` recovers an all-digit block followed by a non-digit. -/
theorem digitRun_append : ∀ (ds rest : List Char), ds.all Char.isDigit = true →
    (rest = [] ∨ ∃ c t, rest = c :: t ∧ c.isDigit = false) →
    digitRun (ds ++ rest) = (ds, rest) := by
  intro ds
  induction ds with
  | nil =>
    intro rest _ hr
    rcases hr with rfl | ⟨c, t, rfl, hc⟩
    · rfl
    · simp [digitRun, hc]
  | cons d ds ih =>
    intro rest hall hr
    rw [List.all_cons, Bool.and_eq_true] at hall
    rw [List.cons_append, digitRun, if_pos hall.1, ih rest hall.2 hr]

/-- Inversion for a successful `:(\d+): ` match. -/
theorem validSplitHere_sound (u ds msg : List Char)
    (h : validSplitHere u = some (ds, msg)) :
    u = ':' :: ds ++ ':' :: ' ' :: msg ∧ ds ≠ [] ∧ ds.all Char.isDigit = true := by
  rw [validSplitHere.eq_def] at h
  split at h
  · rename_i r
    rcases hd : digitRun r with ⟨a, b⟩
    rw [hd] at h
    obtain ⟨hr, hall, _⟩ := digitRun_sound r a b hd
    split at h
    · cases h
    · rename_i heq
      injection heq with heq1 heq2
      injection h with h2
      injection h2 with h3 h4
      subst h3
      subst h4
      subst heq1
      subst heq2
      refine ⟨by simp [hr], by assumption, hall⟩
    · cases h
  · cases h

/-- A literal `:(\d+): ` shape matches. -/
theorem validSplitHere_complete (ds msg : List Char) (hne : ds ≠ [])
    (hall : ds.all Char.isDigit = true) :
    validSplitHere (':' :: ds ++ ':' :: ' ' :: msg) = some (ds, msg) := by
  obtain ⟨d, ds2, rfl⟩ := List.exists_cons_of_ne_nil hne
  rw [show ((':' :: (d :: ds2)) ++ ':' :: ' ' :: msg) =
    ':' :: ((d :: ds2) ++ ':' :: ' ' :: msg) by simp]
  rw [validSplitHere]
  rw [digitRun_append (d :: ds2) (':' :: ' ' :: msg) hall
    (Or.inr ⟨':', ' ' :: msg, rfl, by decide⟩)]
  rfl

/-- A split found in a suffix wins over any earlier position (the
greedy `.+` prefers the rightmost split). -/
theorem lastSplitAux_append_some (ys : List Char) (r : List Char × List Char)
    (h : lastSplitAux ys = some r) :
    ∀ xs : List Char, lastSplitAux (xs ++ ys) = some r := by
  intro xs
  induction xs with
  | nil => simpa using h
  | cons c t ih => rw [List.cons_append, lastSplitAux, ih]

/-- No split exists in colon-free text. -/
theorem lastSplitAux_none_of_no_colon : ∀ (u : List Char), (∀ c ∈ u, c ≠ ':') →
    lastSplitAux u = none := by
  intro u
  induction u with
  | nil => intro _; rfl
  | cons c t ih =>
    intro h
    rw [lastSplitAux, ih (fun x hx => h x (List.mem_cons_of_mem c hx))]
    show validSplitHere (c :: t) = none
    rw [validSplitHere.eq_def]
    split
    · rename_i r heq
      injection heq with h1 h2
      exact absurd h1 (h c (List.mem_cons_self c t))
    · rfl

/-- No split exists inside `<digits>: <colon-free message>`. -/
theorem lastSplitAux_mid_none : ∀ (ds msg : List Char), ds.all Char.isDigit = true →
    (∀ c ∈ msg, c ≠ ':') → lastSplitAux (ds ++ ':' :: ' ' :: msg) = none := by
  intro ds
  induction ds with
  | nil =>
    intro msg _ hmsg
    rw [List.nil_append, lastSplitAux,
      lastSplitAux_none_of_no_colon (' ' :: msg)
        (by intro c hc
            rcases List.mem_cons.mp hc with rfl | hc2
            · decide
            · exact hmsg c hc2)]
    show validSplitHere (':' :: ' ' :: msg) = none
    rw [validSplitHere]
    have hdr : digitRun (' ' :: msg) = ([], ' ' :: msg) := by
      rw [digitRun, if_neg (by decide)]
    rw [hdr]
    rfl
  | cons d ds ih =>
    intro msg hall hmsg
    rw [List.all_cons, Bool.and_eq_true] at hall
    rw [List.cons_append, lastSplitAux, ih msg hall.2 hmsg]
    show validSplitHere (d :: (ds ++ ':' :: ' ' :: msg)) = none
    rw [validSplitHere.eq_def]
    split
    · rename_i r heq
      injection heq with h1 h2
      have hd : d ≠ ':' := by
        intro hdd
        rw [hdd] at hall
        exact absurd hall.1 (by decide)
      exact absurd h1 hd
    · rfl

/-- The split at a well-formed `:(\d+): <colon-free message>` suffix is
found and is the greedy (last) one. -/
theorem lastSplitAux_at_split (ds msg : List Char) (hne : ds ≠ [])
    (hall : ds.all Char.isDigit = true) (hmsg : ∀ c ∈ msg, c ≠ ':') :
    lastSplitAux (':' :: ds ++ ':' :: ' ' :: msg) = some (ds, msg) := by
  rw [show ((':' :: ds) ++ ':' :: ' ' :: msg) = ':' :: (ds ++ ':' :: ' ' :: msg) by simp]
  rw [lastSplitAux, lastSplitAux_mid_none ds msg hall hmsg]
  have := validSplitHere_complete ds msg hne hall
  rw [show ((':' :: ds) ++ ':' :: ' ' :: msg) = ':' :: (ds ++ ':' :: ' ' :: msg) by simp] at this
  rw [this]

/-- Inversion: a found split decomposes the text. -/
theorem lastSplitAux_sound : ∀ (x : List Char) (ds msg : List Char),
    lastSplitAux x = some (ds, msg) →
    ∃ pre, x = pre ++ ':' :: ds ++ ':' :: ' ' :: msg ∧ ds ≠ [] ∧
      ds.all Char.isDigit = true := by
  intro x
  induction x with
  | nil => intro ds msg h; cases h
  | cons c t ih =>
    intro ds msg h
    rw [lastSplitAux] at h
    rcases hrec : lastSplitAux t with _ | r
    · rw [hrec] at h
      obtain ⟨hu, hne, hall⟩ := validSplitHere_sound (c :: t) ds msg h
      exact ⟨[], by simpa using hu, hne, hall⟩
    · rw [hrec] at h
      injection h with h1
      subst h1
      obtain ⟨pre, hpre, hne, hall⟩ := ih ds msg hrec
      exact ⟨c :: pre, by simp [hpre], hne, hall⟩

theorem dropAfterMarker_sound : ∀ (l t : List Char), dropAfterMarker l = some t →
    ∃ a, l = a ++ errMarker ++ t := by
  intro l
  induction l with
  | nil => intro t h; cases h
  | cons c r ih =>
    intro t h
    rw [dropAfterMarker] at h
    split at h
    · rename_i hp
      obtain ⟨u, hu⟩ := List.isPrefixOf_iff_prefix.mp hp
      injection h with h1
      refine ⟨[], ?_⟩
      rw [List.nil_append, ← hu, ← h1, ← hu]
      rw [show (7 : Nat) = errMarker.length from rfl, List.drop_left]
    · obtain ⟨a, ha⟩ := ih t h
      exact ⟨c :: a, by simp [ha]⟩

/-- Dropping at an immediate `"error: "` marker keeps the tail. -/
theorem dropAfterMarker_at_marker (b : List Char) :
    dropAfterMarker (errMarker ++ b) = some b := by
  have h1 : errMarker ++ b = 'e' :: ("rror: ".data ++ b) := rfl
  have hp : errMarker.isPrefixOf (errMarker ++ b) = true := isPrefixOf_self_append _ _
  rw [h1] at hp
  rw [h1, dropAfterMarker, if_pos hp, ← h1]
  rw [show (7 : Nat) = errMarker.length from rfl, List.drop_left]

/-- Whatever the first marker occurrence is, the text after a known
marker occurrence is a suffix of the result. -/
theorem dropAfterMarker_mid : ∀ (a b t : List Char),
    dropAfterMarker (a ++ (errMarker ++ b)) = some t → ∃ mid, t = mid ++ b := by
  intro a
  induction a with
  | nil =>
    intro b t h
    rw [List.nil_append, dropAfterMarker_at_marker] at h
    injection h with h1
    exact ⟨[], by rw [← h1, List.nil_append]⟩
  | cons c a2 ih =>
    intro b t h
    rw [List.cons_append, dropAfterMarker] at h
    split at h
    · injection h with h1
      have h6 : (6 : Nat) ≤ (a2 ++ errMarker).length := by
        simp [List.length_append, errMarker]
      have hd : t = (a2 ++ errMarker).drop 6 ++ b := by
        rw [← h1]
        show (a2 ++ (errMarker ++ b)).drop 6 = _
        rw [show a2 ++ (errMarker ++ b) = (a2 ++ errMarker) ++ b by simp,
          List.drop_append_of_le_length h6]
      exact ⟨(a2 ++ errMarker).drop 6, hd⟩
    · exact ih b t h

/-- A line containing the marker always yields a remainder. -/
theorem dropAfterMarker_exists : ∀ (a b : List Char),
    ∃ t, dropAfterMarker (a ++ (errMarker ++ b)) = some t := by
  intro a
  induction a with
  | nil => exact fun b => ⟨b, by rw [List.nil_append, dropAfterMarker_at_marker]⟩
  | cons c a2 ih =>
    intro b
    rw [List.cons_append, dropAfterMarker]
    by_cases hp : errMarker.isPrefixOf (c :: (a2 ++ (errMarker ++ b))) = true
    · exact ⟨_, by rw [if_pos hp]⟩
    · rw [if_neg hp]
      exact ih b

/-- Soundness of the per-line diagnostic match: a produced diagnostic
comes from a line of the shape `...error: <path>:<line>: <message>`,
with an all-digit line-number capture that fits in `usize` and the file
field set to the target path. -/
theorem parseErrorLine_sound (target : String) (l : List Char) (d : Diagnostic)
    (h : parseErrorLine target l = some d) :
    d.file = target ∧ d.line ≤ usizeMax ∧
    ∃ pre body ds, l = pre ++ errMarker ++ body ++ ':' :: ds ++ ':' :: ' ' :: d.message.data ∧
      body ≠ [] ∧ ds ≠ [] ∧ ds.all Char.isDigit = true ∧ d.line = natOfDigits ds := by
  rw [parseErrorLine] at h
  rcases hdrop : dropAfterMarker l with _ | t
  · rw [hdrop] at h
    simp at h
  · rw [hdrop] at h
    dsimp only at h
    cases t with
    | nil => simp at h
    | cons t0 rest =>
      dsimp only at h
      rcases hls : lastSplitAux rest with _ | pr
      · rw [hls] at h
        simp at h
      · rw [hls] at h
        rcases pr with ⟨ds, msg⟩
        dsimp only at h
        split at h
        · rename_i hv
          injection h with h1
          subst h1
          obtain ⟨a, ha⟩ := dropAfterMarker_sound l (t0 :: rest) hdrop
          obtain ⟨pre2, hpre2, hne, hall⟩ := lastSplitAux_sound rest ds msg hls
          refine ⟨rfl, hv, a, t0 :: pre2, ds, ?_, by simp, hne, hall, rfl⟩
          rw [ha, hpre2]
          simp
        · cases h

/-- Completeness of the per-line diagnostic match: a line of the shape
`<pre>error: <body>:<digits>: <colon-free message>` yields exactly the
diagnostic with that line number and message. -/
theorem parseErrorLine_complete (target : String) (pre body ds msg : List Char)
    (hbody : body ≠ []) (hne : ds ≠ []) (hall : ds.all Char.isDigit = true)
    (hmsg : ∀ c ∈ msg, c ≠ ':') (hv : natOfDigits ds ≤ usizeMax) :
    parseErrorLine target (pre ++ errMarker ++ body ++ ':' :: ds ++ ':' :: ' ' :: msg) =
      some ⟨String.mk msg, natOfDigits ds, target⟩ := by
  obtain ⟨t, ht⟩ := dropAfterMarker_exists pre (body ++ (':' :: ds ++ ':' :: ' ' :: msg))
  obtain ⟨mid, hmid⟩ := dropAfterMarker_mid pre _ t ht
  have hl' : pre ++ errMarker ++ body ++ ':' :: ds ++ ':' :: ' ' :: msg =
      pre ++ (errMarker ++ (body ++ (':' :: ds ++ ':' :: ' ' :: msg))) := by
    simp [List.append_assoc]
  rcases hmb : mid ++ body with _ | ⟨t0, mbt⟩
  · exact absurd (List.append_eq_nil.mp hmb).2 hbody
  · have ht2 : t = t0 :: (mbt ++ (':' :: ds ++ ':' :: ' ' :: msg)) := by
      rw [hmid, ← List.append_assoc, hmb]
      simp
    rw [ht2] at ht
    have hsplit := lastSplitAux_at_split ds msg hne hall hmsg
    have hrest := lastSplitAux_append_some _ _ hsplit mbt
    rw [hl']
    rw [parseErrorLine, ht]
    simp only [hrest, if_pos hv]

/-- The worker's push-loop equals `filterMap` of the per-line parser. -/
theorem collectDiagnostics_eq_filterMap (target : String) :
    ∀ (ls : List (List Char)) (acc : List Diagnostic),
      ls.foldl
        (fun acc l =>
          match parseErrorLine target l with
          | some d => acc ++ [d]
          | none => acc)
        acc = acc ++ ls.filterMap (parseErrorLine target) := by
  intro ls
  induction ls with
  | nil => intro acc; simp
  | cons l ls ih =>
    intro acc
    rw [List.foldl_cons, List.filterMap_cons]
    rcases hp : parseErrorLine target l with _ | d
    · rw [ih]
    · rw [ih]
      simp

/-- C5: the diagnostic parser produces exactly one
`Diagnostic{line, message, file: target}` per output line matching the
`error: <path>:<line>: <message>` pattern whose line-number capture
parses as an unsigned integer, and nothing for any other line; the
spec's example line yields line 42 with message "Undefined control
sequence", a non-matching line yields none, and an overflowing line
number is skipped without failing. -/
theorem diagnostic_parser_characterization :
    ∀ (target stdout stderr : String),
      diagnosticsOf target stdout stderr =
        (rustLines stdout.data ++ rustLines stderr.data).filterMap (parseErrorLine target) ∧
      (∀ l d, parseErrorLine target l = some d →
        d.file = target ∧ d.line ≤ usizeMax ∧
        ∃ pre body ds,
          l = pre ++ errMarker ++ body ++ ':' :: ds ++ ':' :: ' ' :: d.message.data ∧
            body ≠ [] ∧ ds ≠ [] ∧ ds.all Char.isDigit = true ∧ d.line = natOfDigits ds) ∧
      (∀ pre body ds msg, body ≠ [] → ds ≠ [] → ds.all Char.isDigit = true →
        (∀ c ∈ msg, c ≠ ':') → natOfDigits ds ≤ usizeMax →
        parseErrorLine target (pre ++ errMarker ++ body ++ ':' :: ds ++ ':' :: ' ' :: msg) =
          some ⟨String.mk msg, natOfDigits ds, target⟩) ∧
      parseErrorLine target "error: doc.tex:42: Undefined control sequence".data =
        some ⟨"Undefined control sequence", 42, target⟩ ∧
      parseErrorLine target "Undefined control sequence".data = none ∧
      parseErrorLine target "error: doc.tex:99999999999999999999999999999: x".data = none := by
  intro target stdout stderr
  refine ⟨?_, parseErrorLine_sound target, parseErrorLine_complete target, ?_, ?_, ?_⟩
  · exact collectDiagnostics_eq_filterMap target _ []
  · rfl
  · rfl
  · rfl

/-- Witness for C5: the completeness component applied at a concrete
line. -/
theorem diagnostic_parser_characterization_witness :
    parseErrorLine "t"
        ("ab".data ++ errMarker ++ "f.tex".data ++ ':' :: "7".data ++ ':' :: ' ' :: "boom".data) =
      some ⟨String.mk "boom".data, natOfDigits "7".data, "t"⟩ :=
  (diagnostic_parser_characterization "t" "" "").2.2.1 "ab".data "f.tex".data "7".data
    "boom".data (by decide) (by decide) (by decide) (by decide) (by decide)

/-- A strictly closer record within tolerance replaces the best. -/
theorem stepBest_eq_of_lt (y : ℚ) (best : Option (ℚ × Nat)) (r : Nat × ℚ)
    (hbeats : match best with
      | none => True
      | some b => |r.2 - y| < b.1)
    (htol : |r.2 - y| < invTolerance) :
    stepBest y best r = some (|r.2 - y|, r.1) := by
  unfold stepBest
  rcases best with _ | b
  · rw [if_pos ⟨rfl, htol⟩]
  · rw [if_pos ⟨decide_eq_true hbeats, htol⟩]

/-- A record no closer than the best leaves it unchanged. -/
theorem stepBest_keep_of_ge (y : ℚ) (b : ℚ × Nat) (r : Nat × ℚ)
    (h : ¬|r.2 - y| < b.1) :
    stepBest y (some b) r = some b := by
  unfold stepBest
  rw [if_neg]
  intro hcon
  exact h (of_decide_eq_true hcon.1)

/-- A record outside the tolerance never seeds the best. -/
theorem stepBest_none_of_tol (y : ℚ) (r : Nat × ℚ) (h : ¬|r.2 - y| < invTolerance) :
    stepBest y none r = none := by
  unfold stepBest
  rw [if_neg]
  intro hcon
  exact h hcon.2

/-- Fold invariant for a seeded accumulator within tolerance: the
result is the incumbent unless a strictly closer record exists, in
which case it is the earliest closest record. -/
theorem foldl_stepBest_some (y : ℚ) :
    ∀ (recs : List (Nat × ℚ)) (d0 : ℚ) (l0 : Nat), d0 < invTolerance →
      recs.foldl (stepBest y) (some (d0, l0)) = bestAgainst y d0 l0 (closestRec y recs) := by
  intro recs
  induction recs with
  | nil => intros; rfl
  | cons r rs ih =>
    intro d0 l0 hd0
    rw [List.foldl_cons]
    by_cases hlt : |r.2 - y| < d0
    · rw [stepBest_eq_of_lt y _ r hlt (lt_trans hlt hd0), ih _ _ (lt_trans hlt hd0)]
      rcases hc : closestRec y rs with _ | b <;> simp only [closestRec, hc, bestAgainst]
      · rw [if_pos hlt]
      · by_cases hle : |r.2 - y| ≤ |b.2 - y|
        · rw [if_pos hle]
          simp only [bestAgainst]
          rw [if_pos hlt]
          split
          · rename_i hbb
            exfalso
            linarith
          · rfl
        · rw [if_neg hle]
          have hbr : |b.2 - y| < |r.2 - y| := lt_of_not_le hle
          simp only [bestAgainst]
          rw [if_pos hbr, if_pos (lt_trans hbr hlt)]
    · rw [stepBest_keep_of_ge y _ r hlt, ih _ _ hd0]
      rcases hc : closestRec y rs with _ | b <;> simp only [closestRec, hc, bestAgainst]
      · rw [if_neg hlt]
      · by_cases hle : |r.2 - y| ≤ |b.2 - y|
        · rw [if_pos hle]
          simp only [bestAgainst]
          rw [if_neg hlt]
          split
          · rename_i hbb
            exfalso
            linarith
          · rfl
        · rw [if_neg hle]

/-- The loop's fold from the empty accumulator computes the earliest
minimum-distance record, filtered by the tolerance. -/
theorem foldl_stepBest_none (y : ℚ) :
    ∀ recs : List (Nat × ℚ),
      recs.foldl (stepBest y) none = tolFilter y (closestRec y recs) := by
  intro recs
  induction recs with
  | nil => rfl
  | cons r rs ih =>
    rw [List.foldl_cons]
    by_cases htol : |r.2 - y| < invTolerance
    · rw [stepBest_eq_of_lt y none r trivial htol, foldl_stepBest_some y rs _ _ htol]
      rcases hc : closestRec y rs with _ | b <;> simp only [closestRec, hc, bestAgainst, tolFilter]
      · rw [if_pos htol]
      · by_cases hle : |r.2 - y| ≤ |b.2 - y|
        · rw [if_pos hle]
          simp only [tolFilter]
          rw [if_pos htol]
          split
          · rename_i hbb
            exfalso
            linarith
          · rfl
        · rw [if_neg hle]
          have hbr : |b.2 - y| < |r.2 - y| := lt_of_not_le hle
          simp only [tolFilter]
          rw [if_pos hbr, if_pos (lt_trans hbr htol)]
    · rw [stepBest_none_of_tol y r htol, ih]
      rcases hc : closestRec y rs with _ | b <;> simp only [closestRec, hc, tolFilter]
      · rw [if_neg htol]
      · by_cases hle : |r.2 - y| ≤ |b.2 - y|
        · rw [if_pos hle]
          simp only [tolFilter]
          rw [if_neg htol]
          split
          · rename_i hbb
            exfalso
            linarith
          · rfl
        · rw [if_neg hle]

/-- One update never discards an existing best. -/
theorem stepBest_some_isSome (y : ℚ) (b : ℚ × Nat) (r : Nat × ℚ) :
    ∃ b1, stepBest y (some b) r = some b1 := by
  unfold stepBest
  dsimp only
  split
  · exact ⟨_, rfl⟩
  · exact ⟨b, rfl⟩

/-- The fold never discards an existing best. -/
theorem foldl_stepBest_isSome (y : ℚ) :
    ∀ (recs : List (Nat × ℚ)) (b : ℚ × Nat),
      ∃ b2, recs.foldl (stepBest y) (some b) = some b2 := by
  intro recs
  induction recs with
  | nil => exact fun b => ⟨b, rfl⟩
  | cons r rs ih =>
    intro b
    rw [List.foldl_cons]
    obtain ⟨b1, hb1⟩ := stepBest_some_isSome y b r
    rw [hb1]
    exact ih b1

/-- Positivity of the tracked line number is preserved by one update
when the records are positive. -/
theorem stepBest_pos (y : ℚ) (best : Option (ℚ × Nat)) (r : Nat × ℚ)
    (hbest : ∀ b0, best = some b0 → 0 < b0.2) (hr : 0 < r.1) :
    ∀ b, stepBest y best r = some b → 0 < b.2 := by
  intro b h
  unfold stepBest at h
  dsimp only at h
  split at h
  · injection h with h1
    rw [← h1]
    exact hr
  · exact hbest b h

/-- Positivity of the tracked line number is preserved by one loop
iteration when the page's records are positive. -/
theorem invStepBest_pos (tp : Nat) (y : ℚ) (cur : Nat) (best : Option (ℚ × Nat))
    (l : List Char)
    (hbest : ∀ b0, best = some b0 → 0 < b0.2)
    (hpos : ∀ r ∈ recsOnPage tp cur [l], 0 < r.1) :
    ∀ b, invStepBest tp y cur best l = some b → 0 < b.2 := by
  intro b h
  unfold invStepBest at h
  by_cases hm : isMarkerLine l = true
  · rw [if_pos hm] at h
    exact hbest b h
  · rw [if_neg hm] at h
    by_cases hc : cur = tp
    · rw [if_pos hc] at h
      rcases hr : invRecordOf l with _ | r
      · rw [hr] at h
        exact hbest b h
      · rw [hr] at h
        refine stepBest_pos y best r hbest ?_ b h
        refine hpos r ?_
        rw [recsOnPage, if_neg hm, if_pos hc, hr]
        exact List.mem_cons_self _ _
    · rw [if_neg hc] at h
      exact hbest b h

/-- One loop iteration folds the head line's record (if any) into the
accumulator. -/
theorem recsOnPage_cons_fold (tp : Nat) (y : ℚ) (cur : Nat) (best : Option (ℚ × Nat))
    (l : List Char) (ls : List (List Char)) :
    (recsOnPage tp cur (l :: ls)).foldl (stepBest y) best =
      (recsOnPage tp (invStepPage cur l) ls).foldl (stepBest y)
        (invStepBest tp y cur best l) := by
  by_cases hm : isMarkerLine l = true
  · rw [recsOnPage, if_pos hm]
    unfold invStepPage invStepBest
    rw [if_pos hm, if_pos hm]
  · rw [recsOnPage, if_neg hm]
    unfold invStepPage invStepBest
    rw [if_neg hm, if_neg hm]
    by_cases hc : cur = tp
    · rw [if_pos hc, if_pos hc]
      rcases hr : invRecordOf l with _ | r
      · rfl
      · rw [List.foldl_cons]
    · rw [if_neg hc, if_neg hc]

/-- Records of the tail are records of the whole stream. -/
theorem recsOnPage_cons_sub (tp : Nat) (cur : Nat) (l : List Char) (ls : List (List Char)) :
    ∀ r ∈ recsOnPage tp (invStepPage cur l) ls, r ∈ recsOnPage tp cur (l :: ls) := by
  intro r hr
  by_cases hm : isMarkerLine l = true
  · rw [recsOnPage, if_pos hm]
    rw [invStepPage, if_pos hm] at hr
    exact hr
  · rw [invStepPage, if_neg hm] at hr
    rw [recsOnPage, if_neg hm]
    by_cases hc : cur = tp
    · rw [if_pos hc]
      rcases hrec : invRecordOf l with _ | r2
    
      · exact hr
      · exact List.mem_cons_of_mem _ hr
    · rw [if_neg hc]
      exact hr

/-- Records of the head line are records of the whole stream. -/
theorem recsOnPage_head_sub (tp : Nat) (cur : Nat) (l : List Char) (ls : List (List Char)) :
    ∀ r ∈ recsOnPage tp cur [l], r ∈ recsOnPage tp cur (l :: ls) := by
  intro r hr
  by_cases hm : isMarkerLine l = true
  · rw [recsOnPage, if_pos hm] at hr
    rw [recsOnPage] at hr
    cases hr
  · rw [recsOnPage, if_neg hm] at hr
    rw [recsOnPage, if_neg hm]
    by_cases hc : cur = tp
    · rw [if_pos hc] at hr ⊢
      rcases hrec : invRecordOf l with _ | r2
      · rw [hrec] at hr
        exact absurd hr (List.not_mem_nil r)
      · rw [hrec] at hr
        rcases List.mem_cons.mp hr with rfl | hmem
        · exact List.mem_cons_self _ _
        · exact absurd hmem (List.not_mem_nil r)
    · rw [if_neg hc] at hr
      exact absurd hr (List.not_mem_nil r)

/-- The inverse-search loop on a nonempty stream returns the line of
the final best accumulator (all records positive), else the incoming
selection. -/
theorem invScanGo_cons_spec (tp : Nat) (y : ℚ) :
    ∀ (ls : List (List Char)) (l : List Char) (cur : Nat) (best : Option (ℚ × Nat))
      (sel : Option Nat),
      (∀ r ∈ recsOnPage tp cur (l :: ls), 0 < r.1) →
      (∀ b0, best = some b0 → 0 < b0.2) →
      invScanGo tp y cur best sel (l :: ls) =
        selOf sel ((recsOnPage tp cur (l :: ls)).foldl (stepBest y) best) := by
  intro ls
  induction ls with
  | nil =>
    intro l cur best sel hpos hbest
    rw [invScanGo, recsOnPage_cons_fold tp y cur best l []]
    have hb2 := invStepBest_pos tp y cur best l hbest hpos
    rcases hb : invStepBest tp y cur best l with _ | b
    · rfl
    · show selStep sel (some b) = selOf sel (some b)
      rw [selStep, if_pos (hb2 b hb)]
      rfl
  | cons l2 ls2 ih =>
    intro l cur best sel hpos hbest
    have hpos' : ∀ r ∈ recsOnPage tp (invStepPage cur l) (l2 :: ls2), 0 < r.1 :=
      fun r hr => hpos r (recsOnPage_cons_sub tp cur l (l2 :: ls2) r hr)
    have hbest' := invStepBest_pos tp y cur best l hbest
      (fun r hr => hpos r (recsOnPage_head_sub tp cur l (l2 :: ls2) r hr))
    rw [invScanGo, ih l2 (invStepPage cur l) (invStepBest tp y cur best l)
      (selStep sel (invStepBest tp y cur best l)) hpos' hbest',
      recsOnPage_cons_fold tp y cur best l (l2 :: ls2)]
    rcases hf : (recsOnPage tp (invStepPage cur l) (l2 :: ls2)).foldl (stepBest y)
        (invStepBest tp y cur best l) with _ | b2
    · rcases hb : invStepBest tp y cur best l with _ | b1
      · rfl
      · obtain ⟨b3, hb3⟩ := foldl_stepBest_isSome y (recsOnPage tp (invStepPage cur l)
          (l2 :: ls2)) b1
        rw [hb] at hf
        rw [hb3] at hf
        cases hf
    · rfl

/-- C7 (amended): when every record on the target page carries a
positive source line, inverse search returns the line of the
minimum-distance record (earliest on ties) provided that distance is
within the fixed tolerance, and falls back otherwise; the wrapper
converts the click fraction to scaled points with the page height. -/
theorem inverse_search_min_distance :
    ∀ (ls : List (List Char)) (tp : Nat) (y : ℚ),
      (∀ r ∈ recsOnPage tp 0 ls, 0 < r.1) →
      inverseScan ls tp y = inverseSpec ls tp y ∧
      (∀ (pageIdx : Nat) (relY : ℚ) (ps : Nat → Option (ℚ × ℚ)) (w h : ℚ),
        ps pageIdx = some (w, h) →
        inverseSearch (some ls) pageIdx relY ps =
          inverseScan ls (pageIdx + 1) (relY * h * 65536)) := by
  intro ls tp y hpos
  constructor
  · cases ls with
    | nil => rfl
    | cons l ls2 =>
      rw [inverseScan, invScanGo_cons_spec tp y ls2 l 0 none none hpos
        (fun b0 h => by cases h), foldl_stepBest_none y, inverseSpec]
      rcases hc : closestRec y (recsOnPage tp 0 (l :: ls2)) with _ | b
      · rfl
      · show selOf none (tolFilter y (some b)) = _
        rw [tolFilter]
        by_cases htol : |b.2 - y| < invTolerance
        · rw [if_pos htol]
          show (some b.1 : Option Nat) =
            if |b.2 - y| < invTolerance then some b.1 else none
          rw [if_pos htol]
        · rw [if_neg htol]
          show (none : Option Nat) =
            if |b.2 - y| < invTolerance then some b.1 else none
          rw [if_neg htol]
  · intro pageIdx relY ps w h hps
    rw [inverseSearch, hps]

/-- Witness for C7 at a concrete two-record stream. -/
theorem inverse_search_min_distance_witness :
    (∀ r ∈ recsOnPage 1 0 sampleSynctexInv, 0 < r.1) ∧
    inverseScan sampleSynctexInv 1 1100 = inverseSpec sampleSynctexInv 1 1100 :=
  ⟨by decide, (inverse_search_min_distance sampleSynctexInv 1 1100 (by decide)).1⟩

/-- Counterexample to C7 as stated: a within-tolerance minimum-distance
record with source line 0 is not selected — the code falls back —
while the claim demands its line be returned. -/
theorem inverse_search_line0_counterexample :
    inverseSearch (some sampleSynctexLine0) 0 0 samplePS = none ∧
    inverseSpec sampleSynctexLine0 1 ((0 : ℚ) * 100 * 65536) = some 0 ∧
    (none : Option Nat) ≠ some 0 := by
  have htol : |(1 : ℚ) * ((100 : ℕ) : ℚ) - (0 : ℚ) * 100 * 65536| < invTolerance := by
    rw [invTolerance]
    norm_num
  refine ⟨?_, ?_, by decide⟩
  · rw [show inverseSearch (some sampleSynctexLine0) 0 0 samplePS =
        inverseScan sampleSynctexLine0 1 ((0 : ℚ) * 100 * 65536) from rfl]
    rw [show sampleSynctexLine0 = "\x7b1".data :: "x1,0:0,100".data :: [] from rfl]
    rw [inverseScan, invScanGo]
    rw [show invStepPage 0 "\x7b1".data = 1 from rfl,
      show invStepBest 1 ((0 : ℚ) * 100 * 65536) 0 none "\x7b1".data = none from rfl]
    rw [invScanGo]
    have hsb : invStepBest 1 ((0 : ℚ) * 100 * 65536) 1 none "x1,0:0,100".data =
        some (|(1 : ℚ) * ((100 : ℕ) : ℚ) - (0 : ℚ) * 100 * 65536|, 0) := by
      rw [show invStepBest 1 ((0 : ℚ) * 100 * 65536) 1 none "x1,0:0,100".data =
          stepBest ((0 : ℚ) * 100 * 65536) none (0, (1 : ℚ) * ((100 : ℕ) : ℚ)) from rfl]
      exact stepBest_eq_of_lt _ none _ trivial htol
    rw [hsb]
    rfl
  · have hrl : recsOnPage 1 0 sampleSynctexLine0 = [(0, (1 : ℚ) * ((100 : ℕ) : ℚ))] := rfl
    rw [inverseSpec, hrl]
    rw [show closestRec ((0 : ℚ) * 100 * 65536) [(0, (1 : ℚ) * ((100 : ℕ) : ℚ))] =
        some (0, (1 : ℚ) * ((100 : ℕ) : ℚ)) from rfl]
    show (if |(1 : ℚ) * ((100 : ℕ) : ℚ) - (0 : ℚ) * 100 * 65536| < invTolerance
      then some 0 else none) = some 0
    rw [if_pos htol]
